import Mathlib

/-!
A shallow embedding of `twisted/runner/procmon.py` (the process supervisor
`ProcessMonitor`, the `LoggingProtocol` process protocol and its `LineLogger`)
together with theorems checking the natural-language specification of the
supervisor against this code.

Modelling conventions:
* Python `float` time values and delays become `ℚ` (all times in the code are
  plain arithmetic on reactor seconds, so rationals model them exactly on the
  inputs of interest).
* Python dictionaries become association lists `List (Name × α)` with the
  dictionary operations `dlookup` (`d[k]` / `d.get(k)`), `dinsert`
  (`d[k] = v`) and `derase` (`del d[k]`, total: erasing an absent key is a
  no-op, matching the guarded deletes in the source).
* `self.protocols` is only ever used through membership tests, key deletion
  and key insertion, so it is embedded as its key set, a `List Name`.
* A Twisted `DelayedCall` is embedded as a record of its `active()` flag and
  the delay in seconds it was scheduled with; `cancel()` and firing both set
  `active := false`.
* A method that can raise `KeyError` returns
  `Except (Err × Monitor) (Monitor × α)`: the error value carries the state
  as the Python interpreter leaves it at the raise point (all raises in the
  embedded methods happen before any mutation, except inside
  `connectionLost`, whose partial states are carried faithfully).
* Calls into the reactor (`spawnProcess`, `signalProcess`) are pure effects;
  operations return a `Bool` reporting whether the effect happened
  (`startProcess` returns whether it spawned, `stopProcess` whether it
  delivered TERM).
-/

namespace Procmon

abbrev Name := String

abbrev Q := ℚ

abbrev Byte := Nat

/-- Python `min(x, y)` on two numbers: the first argument when they compare
equal, used by `connectionLost` for `min(self.delay[name] * 2,
self.maxRestartDelay)`. -/
def qmin (a b : Q) : Q := if a ≤ b then a else b

/-- Dictionary lookup `d[k]` / `d.get(k)` on an association list. -/
def dlookup {α : Type} : List (Name × α) → Name → Option α
  | [], _ => none
  | (k', v) :: rest, k => if k' = k then some v else dlookup rest k

/-- Dictionary assignment `d[k] = v` on an association list. -/
def dinsert {α : Type} : List (Name × α) → Name → α → List (Name × α)
  | [], k, v => [(k, v)]
  | (k', v') :: rest, k, v =>
      if k' = k then (k, v) :: rest else (k', v') :: dinsert rest k v

/-- Dictionary deletion `del d[k]` on an association list (total; the source
only deletes keys it has just checked or that the caller guarantees). -/
def derase {α : Type} : List (Name × α) → Name → List (Name × α)
  | [], _ => []
  | (k', v) :: rest, k =>
      if k' = k then derase rest k else (k', v) :: derase rest k

/-- Key-set insertion for `self.protocols[name] = proto`. -/
def pinsert (l : List Name) (k : Name) : List Name :=
  if k ∈ l then l else l ++ [k]

/-- Key-set deletion for `del self.protocols[name]`. -/
def pdel : List Name → Name → List Name
  | [], _ => []
  | n :: rest, k => if n = k then pdel rest k else n :: pdel rest k

/-- The `_Process` attrs class: the details of a process to be restarted
(`args`, `uid`, `gid`, `env`, `cwd`). -/
structure ProcessSpec where
  args : List String
  uid : Option Nat := none
  gid : Option Nat := none
  env : List (String × String) := []
  cwd : Option String := none
deriving DecidableEq, Repr

/-- A reactor `DelayedCall`: whether it is still `active()` (not yet fired
and not cancelled), and the delay in seconds it was scheduled with. -/
structure DelayedCall where
  active : Bool
  delay : Q
deriving DecidableEq, Repr

/-- The class attributes `threshold`, `killTime`, `minRestartDelay`,
`maxRestartDelay` of `ProcessMonitor` (never written by any method). -/
structure Config where
  threshold : Q
  killTime : Q
  minRestartDelay : Q
  maxRestartDelay : Q
deriving DecidableEq, Repr

/-- The class defaults: `threshold = 1`, `killTime = 5`,
`minRestartDelay = 1`, `maxRestartDelay = 3600`. -/
def defaultConfig : Config :=
  { threshold := 1, killTime := 5, minRestartDelay := 1, maxRestartDelay := 3600 }

/-- A Python `KeyError` raised from one of the embedded methods. -/
inductive Err where
  | keyError : Name → Err
deriving DecidableEq, Repr

/-- The mutable state of a `ProcessMonitor` instance: the `running` flag from
`service.Service`, and the six per-name tables set up in `__init__`
(`_processes`, `protocols`, `delay`, `timeStarted`, `murder`, `restart`). -/
structure Monitor where
  cfg : Config
  running : Bool
  processes : List (Name × ProcessSpec)
  protocols : List Name
  delay : List (Name × Q)
  timeStarted : List (Name × Q)
  murder : List (Name × DelayedCall)
  restart : List (Name × DelayedCall)
deriving DecidableEq, Repr

/-- `ProcessMonitor.__init__`: empty tables, service not running. -/
def Monitor.initial (c : Config) : Monitor :=
  { cfg := c, running := false, processes := [], protocols := [], delay := [],
    timeStarted := [], murder := [], restart := [] }

/-- The state a fallible method leaves behind, whether it returned or
raised. -/
def res {α : Type} : Except (Err × Monitor) (Monitor × α) → Monitor
  | .ok (m, _) => m
  | .error (_, m) => m

/-- `ProcessMonitor.startProcess(name)`: no-op if a protocol instance already
exists; otherwise looks up `self._processes[name]` (raising `KeyError` if
absent), records the protocol and `timeStarted[name] = reactor.seconds()`,
and spawns the process. The returned `Bool` is whether `spawnProcess` was
called. -/
def startProcess (m : Monitor) (now : Q) (name : Name) :
    Except (Err × Monitor) (Monitor × Bool) :=
  if name ∈ m.protocols then .ok (m, false)
  else
    match dlookup m.processes name with
    | none => .error (.keyError name, m)
    | some _p =>
        .ok ({ m with protocols := pinsert m.protocols name,
                      timeStarted := dinsert m.timeStarted name now }, true)

/-- `ProcessMonitor.addProcess(name, args, ...)`: raises `KeyError` if the
name is registered; otherwise stores the `_Process`, sets
`delay[name] = minRestartDelay`, and calls `startProcess` iff the service is
running. The returned `Bool` is whether a process was spawned. -/
def addProcess (m : Monitor) (now : Q) (name : Name) (p : ProcessSpec) :
    Except (Err × Monitor) (Monitor × Bool) :=
  if (dlookup m.processes name).isSome then .error (.keyError name, m)
  else
    let m1 : Monitor :=
      { m with processes := dinsert m.processes name p,
               delay := dinsert m.delay name m.cfg.minRestartDelay }
    if m1.running then startProcess m1 now name else .ok (m1, false)

/-- `ProcessMonitor.stopProcess(name)`: raises `KeyError` if the name is not
registered; no-op if no live protocol; otherwise sends TERM to the
transport. `alreadyExited` models whether `signalProcess("TERM")` raises
`error.ProcessExitedAlready` (swallowed, no kill timer armed); otherwise a
`murder` timer is armed for `killTime` seconds. The returned `Bool` is
whether TERM was delivered. -/
def stopProcess (m : Monitor) (name : Name) (alreadyExited : Bool) :
    Except (Err × Monitor) (Monitor × Bool) :=
  if (dlookup m.processes name).isNone then .error (.keyError name, m)
  else if name ∈ m.protocols then
    if alreadyExited then .ok (m, false)
    else
      .ok ({ m with murder :=
               dinsert m.murder name { active := true, delay := m.cfg.killTime } },
           true)
  else .ok (m, false)

/-- `ProcessMonitor.removeProcess(name)`: `self.stopProcess(name)` then
`del self._processes[name]`. Note that it touches no timer table itself. -/
def removeProcess (m : Monitor) (name : Name) (alreadyExited : Bool) :
    Except (Err × Monitor) (Monitor × Unit) :=
  match stopProcess m name alreadyExited with
  | .error e => .error e
  | .ok (m1, _) => .ok ({ m1 with processes := derase m1.processes name }, ())

/-- `ProcessMonitor.connectionLost(name)`: cancels and deletes the `murder`
timer if present, deletes the protocol entry (`KeyError` if absent), then
computes the backoff: if `reactor.seconds() - timeStarted[name] < threshold`
the next restart is scheduled after the current `delay[name]` and the delay
is doubled (capped at `maxRestartDelay`); otherwise the next restart is
immediate and the delay resets to `minRestartDelay`. The restart timer is
armed only if the service is running and the name is still registered. The
returned `Q` is the computed `nextDelay`. -/
def connectionLost (m : Monitor) (now : Q) (name : Name) :
    Except (Err × Monitor) (Monitor × Q) :=
  let m1 : Monitor := { m with murder := derase m.murder name }
  if name ∈ m1.protocols then
    let m2 : Monitor := { m1 with protocols := pdel m1.protocols name }
    match dlookup m2.timeStarted name with
    | none => .error (.keyError name, m2)
    | some started =>
        if now - started < m2.cfg.threshold then
          match dlookup m2.delay name with
          | none => .error (.keyError name, m2)
          | some d =>
              let m3 : Monitor :=
                { m2 with delay :=
                    dinsert m2.delay name (qmin (d * 2) m2.cfg.maxRestartDelay) }
              if m3.running ∧ (dlookup m3.processes name).isSome then
                .ok ({ m3 with restart :=
                         dinsert m3.restart name { active := true, delay := d } },
                     d)
              else .ok (m3, d)
        else
          let m3 : Monitor :=
            { m2 with delay := dinsert m2.delay name m2.cfg.minRestartDelay }
          if m3.running ∧ (dlookup m3.processes name).isSome then
            .ok ({ m3 with restart :=
                     dinsert m3.restart name { active := true, delay := 0 } },
                 0)
          else .ok (m3, 0)
  else .error (.keyError name, m1)

/-- `ProcessMonitor.startService()`: sets `running` and calls `startProcess`
for every registered name. -/
def startService (m : Monitor) (now : Q) : Monitor :=
  let m1 : Monitor := { m with running := true }
  m1.processes.foldl (fun acc p => res (startProcess acc now p.1)) m1

/-- `ProcessMonitor.stopService()`: clears `running`, cancels every active
restart timer, then calls `stopProcess` for every registered name.
`alreadyExited` gives, per name, whether TERM delivery would find the
process already gone. -/
def stopService (m : Monitor) (alreadyExited : Name → Bool) : Monitor :=
  let m1 : Monitor := { m with running := false }
  let m2 : Monitor :=
    { m1 with restart :=
        m1.restart.map (fun p => (p.1, { active := false, delay := p.2.delay })) }
  m2.processes.foldl (fun acc p => res (stopProcess acc p.1 (alreadyExited p.1))) m2

/-- `ProcessMonitor.restartAll()`: `stopProcess` for every registered name;
restarting is left to the exit-driven path. -/
def restartAll (m : Monitor) (alreadyExited : Name → Bool) : Monitor :=
  m.processes.foldl (fun acc p => res (stopProcess acc p.1 (alreadyExited p.1))) m

/-- The events the single-threaded reactor can deliver to a
`ProcessMonitor`: the public API calls, a process-exit notification
(delivered only for a live protocol), and the firing of an armed restart or
kill timer (a `DelayedCall` fires only while `active()`, and firing makes it
inactive before running its callback). -/
inductive Event where
  | add : Q → Name → ProcessSpec → Event
  | remove : Name → Bool → Event
  | startSvc : Q → Event
  | stopSvc : (Name → Bool) → Event
  | startP : Q → Name → Event
  | stopP : Name → Bool → Event
  | exit : Q → Name → Event
  | fireRestart : Q → Name → Event
  | fireMurder : Name → Event

/-- One reactor event applied to the monitor state. -/
def step (m : Monitor) : Event → Monitor
  | .add now name p => res (addProcess m now name p)
  | .remove name ex => res (removeProcess m name ex)
  | .startSvc now => startService m now
  | .stopSvc ex => stopService m ex
  | .startP now name => res (startProcess m now name)
  | .stopP name ex => res (stopProcess m name ex)
  | .exit now name =>
      if name ∈ m.protocols then res (connectionLost m now name) else m
  | .fireRestart now name =>
      match dlookup m.restart name with
      | some dc =>
          if dc.active then
            res (startProcess
              { m with restart :=
                  dinsert m.restart name { active := false, delay := dc.delay } }
              now name)
          else m
      | none => m
  | .fireMurder name =>
      match dlookup m.murder name with
      | some dc =>
          if dc.active then
            { m with murder :=
                dinsert m.murder name { active := false, delay := dc.delay } }
          else m
      | none => m

/-- Run a list of reactor events from a state. -/
def run (m : Monitor) (es : List Event) : Monitor := es.foldl step m

/-- A Python value of type `int` or `bytes`, as compared by `==` inside
`LoggingProtocol.outReceived`. -/
inductive PyVal where
  | int : Int → PyVal
  | bytes : List Byte → PyVal

/-- Python 3 `==` on `int`/`bytes` values: equality within a type, and
always `False` across types (an `int` never equals a `bytes`). -/
def pyEq : PyVal → PyVal → Bool
  | .int a, .int b => a == b
  | .bytes a, .bytes b => a == b
  | _, _ => false

/-- The `LineLogger` instance held by a `LoggingProtocol`: its `tag` and the
line buffer inherited from `LineReceiver`. -/
structure LineLogger where
  tag : Name
  buffer : List Byte
deriving DecidableEq, Repr

/-- Modelled from the spec: the line buffering of
`twisted.protocols.basic.LineReceiver` (whose source is not under `src/`) —
"Buffers bytes until a newline delimiter is found; emits each complete line";
`LineLogger` sets the delimiter to the single byte `10`. `feedBytes cur data`
returns the complete lines found while consuming `data` after the pending
partial line `cur`, together with the new pending remainder. -/
def feedBytes (cur : List Byte) : List Byte → List (List Byte) × List Byte
  | [] => ([], cur)
  | b :: rest =>
      if b = 10 then
        let (ls, rem) := feedBytes [] rest
        (cur :: ls, rem)
      else feedBytes (cur ++ [b]) rest

/-- `LineLogger.dataReceived(data)`: buffer the bytes and emit every complete
line to the logging sink (each emitted line is logged once, tagged with the
process name; the UTF-8 decode with escaped fallback in `lineReceived` does
not change which lines are emitted and is elided). -/
def LineLogger.dataReceived (l : LineLogger) (data : List Byte) :
    LineLogger × List (List Byte) :=
  let (ls, rem) := feedBytes l.buffer data
  ({ l with buffer := rem }, ls)

/-- A `LoggingProtocol` instance: the process `name`, the `output`
`LineLogger`, and the `empty` flag (class attribute `empty = 1`, so it is
truthy before any data arrives). -/
structure LoggingProtocol where
  name : Name
  output : LineLogger
  empty : Bool
deriving DecidableEq, Repr

/-- `LoggingProtocol.connectionMade()`: creates the tagged `LineLogger`;
`empty` still holds its class-attribute value `1`. -/
def connectionMade (name : Name) : LoggingProtocol :=
  { name := name, output := { tag := name, buffer := [] }, empty := true }

/-- `LoggingProtocol.outReceived(data)` (and its alias `errReceived`):
forwards the bytes to the line logger, then runs
`self.empty = data[-1] == b"\n"`. Under Python 3 semantics `data[-1]` is an
`int` and `b"\n"` is a `bytes`, so the comparison is the cross-type `pyEq`;
`data[-1]` raises `IndexError` on empty bytes, modelled as `none`. Returns
the updated protocol and the lines emitted. -/
def outReceived (p : LoggingProtocol) (data : List Byte) :
    Option (LoggingProtocol × List (List Byte)) :=
  let (out1, lines) := p.output.dataReceived data
  match data.getLast? with
  | none => none
  | some lastB =>
      some ({ p with output := out1, empty := pyEq (.int lastB) (.bytes [10]) },
            lines)

/-- `LoggingProtocol.errReceived = outReceived`. -/
def errReceived : LoggingProtocol → List Byte →
    Option (LoggingProtocol × List (List Byte)) := outReceived

/-- `LoggingProtocol.processEnded(reason)`: if `empty` is falsy, inject a
synthetic newline into the line logger (flushing any pending partial line);
the protocol then calls `self.service.connectionLost(self.name)`, which is
the `Event.exit` delivery in the supervisor semantics above. Returns the
lines emitted by the flush. -/
def processEnded (p : LoggingProtocol) : LoggingProtocol × List (List Byte) :=
  if !p.empty then
    let (out1, lines) := p.output.dataReceived [10]
    ({ p with output := out1 }, lines)
  else (p, [])

/-- Reachability of one monitor state from another through reactor events. -/
inductive Reaches : Monitor → Monitor → Prop
  | refl (m : Monitor) : Reaches m m
  | tail {m0 m : Monitor} (h : Reaches m0 m) (e : Event) : Reaches m0 (step m e)

/-- The exception a fallible method raised, if any. -/
def raised {α : Type} : Except (Err × Monitor) (Monitor × α) → Option Err
  | .ok _ => none
  | .error (e, _) => some e

/-- The value a fallible method returned, if it did not raise. -/
def resOut {α : Type} : Except (Err × Monitor) (Monitor × α) → Option α
  | .ok (_, a) => some a
  | .error _ => none

/-- A concrete process specification used in the scenario runs. -/
def demoSpec : ProcessSpec := { args := ["/bin/proc"] }

/-- The configuration of the spec scenario: `minRestartDelay = 1`,
`threshold = 1`, `maxRestartDelay = 60` (and the default `killTime = 5`). -/
def cfg60 : Config :=
  { threshold := 1, killTime := 5, minRestartDelay := 1, maxRestartDelay := 60 }

/-- Scenario prefix: start the service at t = 0 and register process `p`,
which spawns it at once. -/
def bk0 : List Event := [.startSvc 0, .add 0 "p" demoSpec]

/-- Scenario: first fast exit, at t = 0.2 (elapsed 0.2 < threshold). -/
def bk1 : List Event := bk0 ++ [.exit (1 / 5) "p"]

/-- Scenario: restart fires after the scheduled 1 s, second fast exit 0.2 s
later. -/
def bk2 : List Event := bk1 ++ [.fireRestart (6 / 5) "p", .exit (7 / 5) "p"]

/-- Scenario: restart fires after the scheduled 2 s, third fast exit 0.2 s
later. -/
def bk3 : List Event := bk2 ++ [.fireRestart (17 / 5) "p", .exit (18 / 5) "p"]

/-- Scenario: restart fires after the scheduled 4 s, then the process runs
for 2 s (at least threshold) before exiting. -/
def bk4 : List Event := bk3 ++ [.fireRestart (38 / 5) "p", .exit (48 / 5) "p"]

/-- The monitor right after `bk0`: service running, `p` registered and
live. -/
def mon0 : Monitor := run (Monitor.initial cfg60) bk0

/-- The monitor right after `bk1`: `p` registered, not live, with an armed
restart timer scheduled 1 s out. -/
def c3pre : Monitor := run (Monitor.initial cfg60) bk1

/-- Events arming a kill timer: start, register `p`, then `stopProcess`
delivering TERM to the live process. -/
def bkKill : List Event := bk0 ++ [.stopP "p" false]

/-- Invariant: an active kill-escalation timer exists only for a name with a
live protocol. -/
def MurderLive (m : Monitor) : Prop :=
  ∀ n dc, dlookup m.murder n = some dc → dc.active = true → n ∈ m.protocols

/-- Invariant: every recorded restart delay lies between `minRestartDelay`
and `maxRestartDelay`. -/
def DelayBounds (m : Monitor) : Prop :=
  ∀ n d, dlookup m.delay n = some d →
    m.cfg.minRestartDelay ≤ d ∧ d ≤ m.cfg.maxRestartDelay

theorem dlookup_dinsert_self {α : Type} (l : List (Name × α)) (k : Name) (v : α) :
    dlookup (dinsert l k v) k = some v := by
  induction l with
  | nil => simp [dinsert, dlookup]
  | cons hd t ih =>
      obtain ⟨k', v'⟩ := hd
      by_cases hk : k' = k
      · simp [dinsert, hk, dlookup]
      · simp [dinsert, hk, dlookup, ih]

theorem dlookup_dinsert_ne {α : Type} (l : List (Name × α)) {k k' : Name}
    (h : k' ≠ k) (v : α) : dlookup (dinsert l k v) k' = dlookup l k' := by
  induction l with
  | nil => simp [dinsert, dlookup, Ne.symm h]
  | cons hd t ih =>
      obtain ⟨k0, v0⟩ := hd
      by_cases hk : k0 = k
      · subst hk
        simp [dinsert, dlookup, Ne.symm h]
      · simp [dinsert, dlookup, hk, ih]

theorem dlookup_derase_self {α : Type} (l : List (Name × α)) (k : Name) :
    dlookup (derase l k) k = none := by
  induction l with
  | nil => simp [derase, dlookup]
  | cons hd t ih =>
      obtain ⟨k', v'⟩ := hd
      by_cases hk : k' = k
      · simp [derase, hk, ih]
      · simp [derase, hk, dlookup, ih]

theorem dlookup_derase_ne {α : Type} (l : List (Name × α)) {k k' : Name}
    (h : k' ≠ k) : dlookup (derase l k) k' = dlookup l k' := by
  induction l with
  | nil => simp [derase]
  | cons hd t ih =>
      obtain ⟨k0, v0⟩ := hd
      by_cases hk : k0 = k
      · subst hk
        simp [derase, dlookup, Ne.symm h, ih]
      · simp [derase, hk, dlookup, ih]

theorem mem_pinsert {l : List Name} {k n : Name} :
    n ∈ pinsert l k ↔ n ∈ l ∨ n = k := by
  unfold pinsert
  by_cases hk : k ∈ l
  · simp only [if_pos hk]
    constructor
    · exact fun h => Or.inl h
    · rintro (h | rfl)
      · exact h
      · exact hk
  · simp [if_neg hk]

theorem mem_pdel {l : List Name} {k n : Name} :
    n ∈ pdel l k ↔ n ∈ l ∧ n ≠ k := by
  induction l with
  | nil => simp [pdel]
  | cons hd t ih =>
      by_cases hk : hd = k
      · rw [show pdel (hd :: t) k = pdel t k by simp [pdel, hk], ih]
        subst hk
        simp only [List.mem_cons]
        constructor
        · rintro ⟨h1, h2⟩
          exact ⟨Or.inr h1, h2⟩
        · rintro ⟨h1 | h1, h2⟩
          · exact absurd h1 h2
          · exact ⟨h1, h2⟩
      · rw [show pdel (hd :: t) k = hd :: pdel t k by simp [pdel, hk]]
        simp only [List.mem_cons, ih]
        constructor
        · rintro (rfl | ⟨h1, h2⟩)
          · exact ⟨Or.inl rfl, hk⟩
          · exact ⟨Or.inr h1, h2⟩
        · rintro ⟨rfl | h1, h2⟩
          · exact Or.inl rfl
          · exact Or.inr ⟨h1, h2⟩

theorem dlookup_mem_keys {α : Type} {l : List (Name × α)} {k : Name}
    (h : (dlookup l k).isSome) : k ∈ l.map Prod.fst := by
  induction l with
  | nil => simp [dlookup] at h
  | cons hd t ih =>
      obtain ⟨k', v'⟩ := hd
      by_cases hk : k' = k
      · subst hk
        simp
      · simp only [dlookup, if_neg hk] at h
        simpa using Or.inr (by simpa using ih h)

theorem dlookup_map_cancel {l : List (Name × DelayedCall)} {n : Name}
    {dc : DelayedCall}
    (h : dlookup (l.map fun p => (p.1, { active := false, delay := p.2.delay })) n
           = some dc) : dc.active = false := by
  induction l with
  | nil => simp [dlookup] at h
  | cons hd t ih =>
      obtain ⟨k', v'⟩ := hd
      rw [List.map_cons] at h
      simp only [dlookup] at h
      by_cases hk : k' = n
      · rw [if_pos hk] at h
        cases h
        rfl
      · rw [if_neg hk] at h
        exact ih h

theorem foldl_preserve {β : Type} (f : Monitor → β → Monitor) (Pr : Monitor → Prop)
    (hf : ∀ acc x, Pr acc → Pr (f acc x)) :
    ∀ (l : List β) (acc : Monitor), Pr acc → Pr (l.foldl f acc)
  | [], _, h => h
  | x :: xs, acc, h => foldl_preserve f Pr hf xs (f acc x) (hf acc x h)

theorem startProcess_res_cases (m : Monitor) (now : Q) (n : Name) :
    res (startProcess m now n) = m ∨
    (n ∉ m.protocols ∧
     res (startProcess m now n)
       = { m with protocols := pinsert m.protocols n,
                  timeStarted := dinsert m.timeStarted n now }) := by
  unfold startProcess
  by_cases h1 : n ∈ m.protocols
  · rw [if_pos h1]
    left
    rfl
  · rw [if_neg h1]
    cases h2 : dlookup m.processes n with
    | none => left; rfl
    | some p => right; exact ⟨h1, rfl⟩

theorem stopProcess_res_cases (m : Monitor) (n : Name) (b : Bool) :
    res (stopProcess m n b) = m ∨
    (n ∈ m.protocols ∧ b = false ∧
     res (stopProcess m n b)
       = { m with murder :=
             dinsert m.murder n { active := true, delay := m.cfg.killTime } }) := by
  unfold stopProcess
  by_cases h1 : (dlookup m.processes n).isNone
  · rw [if_pos h1]
    left
    rfl
  · rw [if_neg h1]
    by_cases h2 : n ∈ m.protocols
    · rw [if_pos h2]
      cases b with
      | true => left; rfl
      | false =>
          right
          exact ⟨h2, rfl, rfl⟩
    · rw [if_neg h2]
      left
      rfl

theorem removeProcess_res_cases (m : Monitor) (n : Name) (b : Bool) :
    res (removeProcess m n b) = m ∨
    res (removeProcess m n b)
      = { res (stopProcess m n b) with
          processes := derase (res (stopProcess m n b)).processes n } := by
  unfold removeProcess
  cases h : stopProcess m n b with
  | error e =>
      obtain ⟨e1, m1⟩ := e
      left
      have hm : m1 = m := by
        unfold stopProcess at h
        by_cases h1 : (dlookup m.processes n).isNone
        · rw [if_pos h1] at h
          cases h
          rfl
        · rw [if_neg h1] at h
          by_cases h2 : n ∈ m.protocols
          · rw [if_pos h2] at h
            cases b with
            | true => exact Except.noConfusion h
            | false => exact Except.noConfusion h
          · rw [if_neg h2] at h
            exact Except.noConfusion h
      simp [res, hm]
  | ok v =>
      obtain ⟨m1, bv⟩ := v
      right
      simp [res, h]

theorem addProcess_res_cases (m : Monitor) (now : Q) (n : Name) (p : ProcessSpec) :
    res (addProcess m now n p) = m ∨
    res (addProcess m now n p)
      = { m with processes := dinsert m.processes n p,
                 delay := dinsert m.delay n m.cfg.minRestartDelay } ∨
    res (addProcess m now n p)
      = res (startProcess
          { m with processes := dinsert m.processes n p,
                   delay := dinsert m.delay n m.cfg.minRestartDelay } now n) := by
  unfold addProcess
  by_cases h1 : (dlookup m.processes n).isSome
  · rw [if_pos h1]
    left
    rfl
  · rw [if_neg h1]
    cases hr : m.running with
    | true =>
        right; right
        show res (if (true : Bool) = true then _ else _) = _
        rw [if_pos rfl]
    | false =>
        right; left
        show res (if (false : Bool) = true then _ else _) = _
        rw [if_neg (by simp)]
        rfl

theorem connectionLost_res_fields (m : Monitor) (now : Q) (name : Name) :
    (res (connectionLost m now name)).cfg = m.cfg ∧
    (res (connectionLost m now name)).running = m.running ∧
    (res (connectionLost m now name)).processes = m.processes ∧
    (res (connectionLost m now name)).timeStarted = m.timeStarted ∧
    (res (connectionLost m now name)).murder = derase m.murder name ∧
    ((res (connectionLost m now name)).protocols = m.protocols ∨
     (res (connectionLost m now name)).protocols = pdel m.protocols name) ∧
    ((res (connectionLost m now name)).delay = m.delay ∨
     (res (connectionLost m now name)).delay
       = dinsert m.delay name m.cfg.minRestartDelay ∨
     ∃ d, dlookup m.delay name = some d ∧
       (res (connectionLost m now name)).delay
         = dinsert m.delay name (qmin (d * 2) m.cfg.maxRestartDelay)) ∧
    ((res (connectionLost m now name)).restart = m.restart ∨
     ∃ dc, (res (connectionLost m now name)).restart
             = dinsert m.restart name dc) := by
  simp only [connectionLost]
  by_cases hp : name ∈ m.protocols
  · rw [if_pos hp]
    cases hts : dlookup m.timeStarted name with
    | none =>
        exact ⟨rfl, rfl, rfl, rfl, rfl, Or.inr rfl, Or.inl rfl, Or.inl rfl⟩
    | some t0 =>
        dsimp only
        by_cases hf : now - t0 < m.cfg.threshold
        · rw [if_pos hf]
          cases hd : dlookup m.delay name with
          | none =>
              exact ⟨rfl, rfl, rfl, rfl, rfl, Or.inr rfl, Or.inl rfl, Or.inl rfl⟩
          | some d =>
              dsimp only
              by_cases hrun : m.running = true ∧ (dlookup m.processes name).isSome
              · rw [if_pos hrun]
                exact ⟨rfl, rfl, rfl, rfl, rfl, Or.inr rfl,
                  Or.inr (Or.inr ⟨d, rfl, rfl⟩),
                  Or.inr ⟨{ active := true, delay := d }, rfl⟩⟩
              · rw [if_neg hrun]
                exact ⟨rfl, rfl, rfl, rfl, rfl, Or.inr rfl,
                  Or.inr (Or.inr ⟨d, rfl, rfl⟩), Or.inl rfl⟩
        · rw [if_neg hf]
          by_cases hrun : m.running = true ∧ (dlookup m.processes name).isSome
          · rw [if_pos hrun]
            exact ⟨rfl, rfl, rfl, rfl, rfl, Or.inr rfl, Or.inr (Or.inl rfl),
              Or.inr ⟨{ active := true, delay := 0 }, rfl⟩⟩
          · rw [if_neg hrun]
            exact ⟨rfl, rfl, rfl, rfl, rfl, Or.inr rfl, Or.inr (Or.inl rfl),
              Or.inl rfl⟩
  · rw [if_neg hp]
    exact ⟨rfl, rfl, rfl, rfl, rfl, Or.inl rfl, Or.inl rfl, Or.inl rfl⟩

theorem qmin_bounds {mn mx d : Q} (h0 : 0 < mn) (hmn : mn ≤ d) (hmx : mn ≤ mx) :
    mn ≤ qmin (d * 2) mx ∧ qmin (d * 2) mx ≤ mx := by
  unfold qmin
  by_cases h : d * 2 ≤ mx
  · rw [if_pos h]
    exact ⟨by linarith, h⟩
  · rw [if_neg h]
    exact ⟨hmx, le_refl mx⟩

theorem murderLive_startProcess (m : Monitor) (now : Q) (n : Name)
    (h : MurderLive m) : MurderLive (res (startProcess m now n)) := by
  rcases startProcess_res_cases m now n with hc | ⟨hn, hc⟩
  · rw [hc]; exact h
  · rw [hc]
    intro k dc hk ha
    exact mem_pinsert.mpr (Or.inl (h k dc hk ha))

theorem murderLive_stopProcess (m : Monitor) (n : Name) (b : Bool)
    (h : MurderLive m) : MurderLive (res (stopProcess m n b)) := by
  rcases stopProcess_res_cases m n b with hc | ⟨hn, hb, hc⟩
  · rw [hc]; exact h
  · rw [hc]
    intro k dc hk ha
    by_cases hkn : k = n
    · subst hkn
      exact hn
    · rw [dlookup_dinsert_ne _ hkn _] at hk
      exact h k dc hk ha

theorem murderLive_addProcess (m : Monitor) (now : Q) (n : Name) (p : ProcessSpec)
    (h : MurderLive m) : MurderLive (res (addProcess m now n p)) := by
  rcases addProcess_res_cases m now n p with hc | hc | hc
  · rw [hc]; exact h
  · rw [hc]; exact h
  · rw [hc]
    exact murderLive_startProcess _ _ _ h

theorem murderLive_removeProcess (m : Monitor) (n : Name) (b : Bool)
    (h : MurderLive m) : MurderLive (res (removeProcess m n b)) := by
  rcases removeProcess_res_cases m n b with hc | hc
  · rw [hc]; exact h
  · rw [hc]
    exact murderLive_stopProcess m n b h

theorem murderLive_connectionLost (m : Monitor) (now : Q) (name : Name)
    (h : MurderLive m) : MurderLive (res (connectionLost m now name)) := by
  obtain ⟨_, _, _, _, hmur, hprot, _, _⟩ := connectionLost_res_fields m now name
  intro k dc hk ha
  rw [hmur] at hk
  by_cases hkn : k = name
  · subst hkn
    rw [dlookup_derase_self] at hk
    cases hk
  · rw [dlookup_derase_ne _ hkn] at hk
    have hmem := h k dc hk ha
    rcases hprot with hp | hp
    · rw [hp]; exact hmem
    · rw [hp]; exact mem_pdel.mpr ⟨hmem, hkn⟩

theorem murderLive_step (m : Monitor) (e : Event) (h : MurderLive m) :
    MurderLive (step m e) := by
  cases e with
  | add now name p => exact murderLive_addProcess m now name p h
  | remove name ex => exact murderLive_removeProcess m name ex h
  | startSvc now =>
      unfold step startService
      exact foldl_preserve _ MurderLive
        (fun acc x hx => murderLive_startProcess acc now x.1 hx) _ _ h
  | stopSvc ex =>
      unfold step stopService
      exact foldl_preserve _ MurderLive
        (fun acc x hx => murderLive_stopProcess acc x.1 (ex x.1) hx) _ _ h
  | startP now name => exact murderLive_startProcess m now name h
  | stopP name ex => exact murderLive_stopProcess m name ex h
  | exit now name =>
      unfold step
      dsimp only
      by_cases hp : name ∈ m.protocols
      · rw [if_pos hp]
        exact murderLive_connectionLost m now name h
      · rw [if_neg hp]
        exact h
  | fireRestart now name =>
      unfold step
      dsimp only
      cases hdc : dlookup m.restart name with
      | none => exact h
      | some dc =>
          dsimp only
          cases hab : dc.active with
          | false =>
              rw [if_neg (by simp)]
              exact h
          | true =>
              rw [if_pos rfl]
              exact murderLive_startProcess _ _ _ h
  | fireMurder name =>
      unfold step
      dsimp only
      cases hdc : dlookup m.murder name with
      | none => exact h
      | some dc =>
          dsimp only
          cases hab : dc.active with
          | false =>
              rw [if_neg (by simp)]
              exact h
          | true =>
              rw [if_pos rfl]
              intro k dc' hk ha
              by_cases hkn : k = name
              · subst hkn
                rw [dlookup_dinsert_self] at hk
                cases hk
                cases ha
              · rw [dlookup_dinsert_ne _ hkn _] at hk
                exact h k dc' hk ha

theorem cfg_startProcess (m : Monitor) (now : Q) (n : Name) :
    (res (startProcess m now n)).cfg = m.cfg := by
  rcases startProcess_res_cases m now n with hc | ⟨_, hc⟩ <;> rw [hc]

theorem cfg_stopProcess (m : Monitor) (n : Name) (b : Bool) :
    (res (stopProcess m n b)).cfg = m.cfg := by
  rcases stopProcess_res_cases m n b with hc | ⟨_, _, hc⟩ <;> rw [hc]

theorem cfg_addProcess (m : Monitor) (now : Q) (n : Name) (p : ProcessSpec) :
    (res (addProcess m now n p)).cfg = m.cfg := by
  rcases addProcess_res_cases m now n p with hc | hc | hc <;> rw [hc]
  exact cfg_startProcess _ now n

theorem cfg_removeProcess (m : Monitor) (n : Name) (b : Bool) :
    (res (removeProcess m n b)).cfg = m.cfg := by
  rcases removeProcess_res_cases m n b with hc | hc <;> rw [hc]
  exact cfg_stopProcess m n b

theorem cfg_step (m : Monitor) (e : Event) : (step m e).cfg = m.cfg := by
  cases e with
  | add now name p => exact cfg_addProcess m now name p
  | remove name ex => exact cfg_removeProcess m name ex
  | startSvc now =>
      unfold step startService
      exact foldl_preserve _ (fun x => x.cfg = m.cfg)
        (fun acc x hx => by
          show (res (startProcess acc now x.1)).cfg = m.cfg
          rw [cfg_startProcess acc now x.1]
          exact hx) _ _ rfl
  | stopSvc ex =>
      unfold step stopService
      exact foldl_preserve _ (fun x => x.cfg = m.cfg)
        (fun acc x hx => by
          show (res (stopProcess acc x.1 (ex x.1))).cfg = m.cfg
          rw [cfg_stopProcess acc x.1 (ex x.1)]
          exact hx) _ _ rfl
  | startP now name => exact cfg_startProcess m now name
  | stopP name ex => exact cfg_stopProcess m name ex
  | exit now name =>
      unfold step
      dsimp only
      by_cases hp : name ∈ m.protocols
      · rw [if_pos hp]
        exact (connectionLost_res_fields m now name).1
      · rw [if_neg hp]
  | fireRestart now name =>
      unfold step
      dsimp only
      cases hdc : dlookup m.restart name with
      | none => rfl
      | some dc =>
          dsimp only
          cases hab : dc.active with
          | false => rw [if_neg (by simp)]
          | true =>
              rw [if_pos rfl]
              exact cfg_startProcess _ now name
  | fireMurder name =>
      unfold step
      dsimp only
      cases hdc : dlookup m.murder name with
      | none => rfl
      | some dc =>
          dsimp only
          cases hab : dc.active with
          | false => rw [if_neg (by simp)]
          | true => rw [if_pos rfl]

theorem delay_startProcess (m : Monitor) (now : Q) (n : Name) :
    (res (startProcess m now n)).delay = m.delay := by
  rcases startProcess_res_cases m now n with hc | ⟨_, hc⟩ <;> rw [hc]

theorem delay_stopProcess (m : Monitor) (n : Name) (b : Bool) :
    (res (stopProcess m n b)).delay = m.delay := by
  rcases stopProcess_res_cases m n b with hc | ⟨_, _, hc⟩ <;> rw [hc]

theorem delay_removeProcess (m : Monitor) (n : Name) (b : Bool) :
    (res (removeProcess m n b)).delay = m.delay := by
  rcases removeProcess_res_cases m n b with hc | hc <;> rw [hc]
  exact delay_stopProcess m n b

theorem delayBounds_startProcess (m : Monitor) (now : Q) (n : Name)
    (h : DelayBounds m) : DelayBounds (res (startProcess m now n)) := by
  intro k d hk
  rw [delay_startProcess] at hk
  rw [cfg_startProcess]
  exact h k d hk

theorem delayBounds_stopProcess (m : Monitor) (n : Name) (b : Bool)
    (h : DelayBounds m) : DelayBounds (res (stopProcess m n b)) := by
  intro k d hk
  rw [delay_stopProcess] at hk
  rw [cfg_stopProcess]
  exact h k d hk

theorem delayBounds_removeProcess (m : Monitor) (n : Name) (b : Bool)
    (h : DelayBounds m) : DelayBounds (res (removeProcess m n b)) := by
  intro k d hk
  rw [delay_removeProcess] at hk
  rw [cfg_removeProcess]
  exact h k d hk

theorem delayBounds_addProcess (m : Monitor) (now : Q) (n : Name) (p : ProcessSpec)
    (h1 : m.cfg.minRestartDelay ≤ m.cfg.maxRestartDelay)
    (h : DelayBounds m) : DelayBounds (res (addProcess m now n p)) := by
  have hAdd : DelayBounds
      { m with processes := dinsert m.processes n p,
               delay := dinsert m.delay n m.cfg.minRestartDelay } := by
    intro k d hk
    dsimp only at hk ⊢
    by_cases hkn : k = n
    · subst hkn
      rw [dlookup_dinsert_self] at hk
      cases hk
      exact ⟨le_refl _, h1⟩
    · rw [dlookup_dinsert_ne _ hkn _] at hk
      exact h k d hk
  rcases addProcess_res_cases m now n p with hc | hc | hc
  · rw [hc]; exact h
  · rw [hc]; exact hAdd
  · rw [hc]; exact delayBounds_startProcess _ _ _ hAdd

theorem delayBounds_connectionLost (m : Monitor) (now : Q) (name : Name)
    (h0 : 0 < m.cfg.minRestartDelay)
    (h1 : m.cfg.minRestartDelay ≤ m.cfg.maxRestartDelay)
    (h : DelayBounds m) : DelayBounds (res (connectionLost m now name)) := by
  obtain ⟨hcfg, _, _, _, _, _, hdel, _⟩ := connectionLost_res_fields m now name
  intro k d hk
  rw [hcfg]
  rcases hdel with hd | hd | ⟨d0, hd0, hd⟩
  · rw [hd] at hk
    exact h k d hk
  · rw [hd] at hk
    by_cases hkn : k = name
    · subst hkn
      rw [dlookup_dinsert_self] at hk
      cases hk
      exact ⟨le_refl _, h1⟩
    · rw [dlookup_dinsert_ne _ hkn _] at hk
      exact h k d hk
  · rw [hd] at hk
    by_cases hkn : k = name
    · subst hkn
      rw [dlookup_dinsert_self] at hk
      cases hk
      exact qmin_bounds h0 (h _ _ hd0).1 h1
    · rw [dlookup_dinsert_ne _ hkn _] at hk
      exact h k d hk

theorem delayBounds_step (m : Monitor) (e : Event)
    (h0 : 0 < m.cfg.minRestartDelay)
    (h1 : m.cfg.minRestartDelay ≤ m.cfg.maxRestartDelay)
    (h : DelayBounds m) : DelayBounds (step m e) := by
  cases e with
  | add now name p => exact delayBounds_addProcess m now name p h1 h
  | remove name ex => exact delayBounds_removeProcess m name ex h
  | startSvc now =>
      unfold step startService
      exact foldl_preserve _ DelayBounds
        (fun acc x hx => delayBounds_startProcess acc now x.1 hx) _ _ h
  | stopSvc ex =>
      unfold step stopService
      exact foldl_preserve _ DelayBounds
        (fun acc x hx => delayBounds_stopProcess acc x.1 (ex x.1) hx) _ _ h
  | startP now name => exact delayBounds_startProcess m now name h
  | stopP name ex => exact delayBounds_stopProcess m name ex h
  | exit now name =>
      unfold step
      dsimp only
      by_cases hp : name ∈ m.protocols
      · rw [if_pos hp]
        exact delayBounds_connectionLost m now name h0 h1 h
      · rw [if_neg hp]
        exact h
  | fireRestart now name =>
      unfold step
      dsimp only
      cases hdc : dlookup m.restart name with
      | none => exact h
      | some dc =>
          dsimp only
          cases hab : dc.active with
          | false =>
              rw [if_neg (by simp)]
              exact h
          | true =>
              rw [if_pos rfl]
              exact delayBounds_startProcess _ _ _ h
  | fireMurder name =>
      unfold step
      dsimp only
      cases hdc : dlookup m.murder name with
      | none => exact h
      | some dc =>
          dsimp only
          cases hab : dc.active with
          | false =>
              rw [if_neg (by simp)]
              exact h
          | true =>
              rw [if_pos rfl]
              intro k d hk
              exact h k d hk

theorem reaches_trans {a b c : Monitor} (h1 : Reaches a b) (h2 : Reaches b c) :
    Reaches a c := by
  induction h2 with
  | refl => exact h1
  | tail h e ih => exact Reaches.tail ih e

theorem reaches_run (m0 : Monitor) (es : List Event) : Reaches m0 (run m0 es) := by
  induction es generalizing m0 with
  | nil => exact Reaches.refl m0
  | cons e t ih =>
      exact reaches_trans (Reaches.tail (Reaches.refl m0) e) (ih (step m0 e))

theorem cfg_reaches {m0 m : Monitor} (h : Reaches m0 m) : m.cfg = m0.cfg := by
  induction h with
  | refl => rfl
  | tail h e ih => rw [cfg_step]; exact ih

theorem murderLive_reaches {m0 m : Monitor} (h : Reaches m0 m)
    (h0 : MurderLive m0) : MurderLive m := by
  induction h with
  | refl => exact h0
  | tail h e ih => exact murderLive_step _ e ih

theorem delayBounds_reaches {m0 m : Monitor} (h : Reaches m0 m)
    (hp : 0 < m0.cfg.minRestartDelay)
    (hq : m0.cfg.minRestartDelay ≤ m0.cfg.maxRestartDelay)
    (h0 : DelayBounds m0) : DelayBounds m := by
  induction h with
  | refl => exact h0
  | tail h e ih =>
      apply delayBounds_step
      · rw [cfg_reaches h]
        exact hp
      · rw [cfg_reaches h]
        exact hq
      · exact ih

theorem processes_stopProcess (m : Monitor) (n : Name) (b : Bool) :
    (res (stopProcess m n b)).processes = m.processes := by
  rcases stopProcess_res_cases m n b with hc | ⟨_, _, hc⟩ <;> rw [hc]

theorem protocols_stopProcess (m : Monitor) (n : Name) (b : Bool) :
    (res (stopProcess m n b)).protocols = m.protocols := by
  rcases stopProcess_res_cases m n b with hc | ⟨_, _, hc⟩ <;> rw [hc]

theorem restart_stopProcess (m : Monitor) (n : Name) (b : Bool) :
    (res (stopProcess m n b)).restart = m.restart := by
  rcases stopProcess_res_cases m n b with hc | ⟨_, _, hc⟩ <;> rw [hc]

theorem running_stopProcess (m : Monitor) (n : Name) (b : Bool) :
    (res (stopProcess m n b)).running = m.running := by
  rcases stopProcess_res_cases m n b with hc | ⟨_, _, hc⟩ <;> rw [hc]

theorem stopProcess_arms (m : Monitor) (n : Name)
    (hS : (dlookup m.processes n).isSome) (hP : n ∈ m.protocols) :
    stopProcess m n false
      = .ok ({ m with murder :=
                 dinsert m.murder n { active := true, delay := m.cfg.killTime } },
             true) := by
  have hs' : ¬((dlookup m.processes n).isNone = true) := by
    cases hv : dlookup m.processes n
    · rw [hv] at hS
      cases hS
    · simp
  unfold stopProcess
  rw [if_neg hs', if_pos hP, if_neg (by simp)]

theorem stopProcess_murder_preserve (m : Monitor) (k : Name) (b : Bool) (n : Name)
    (hv : dlookup m.murder n = some { active := true, delay := m.cfg.killTime }) :
    dlookup (res (stopProcess m k b)).murder n
      = some { active := true, delay := m.cfg.killTime } := by
  rcases stopProcess_res_cases m k b with hc | ⟨_, _, hc⟩
  · rw [hc]
    exact hv
  · rw [hc]
    by_cases hkn : n = k
    · subst hkn
      exact dlookup_dinsert_self _ _ _
    · rw [dlookup_dinsert_ne _ hkn _]
      exact hv

theorem startProcess_unregistered_noop (m : Monitor) (now : Q) (n : Name)
    (hn : dlookup m.processes n = none) :
    res (startProcess m now n) = m ∧
    resOut (startProcess m now n) ≠ some true := by
  unfold startProcess
  by_cases hp : n ∈ m.protocols
  · rw [if_pos hp]
    exact ⟨rfl, fun hcc => Bool.noConfusion (Option.some.inj hcc)⟩
  · rw [if_neg hp, hn]
    exact ⟨rfl, fun hcc => Option.noConfusion hcc⟩

/-- C7: `stopProcess(name)` raises `KeyError` and changes nothing when the
name is not registered; is a no-op when registered with no live protocol;
swallows `ProcessExitedAlready` (arming no kill timer) when the process
already exited; and otherwise delivers TERM and arms a kill timer for
`killTime` seconds. -/
theorem stopProcess_spec :
    ∀ (m : Monitor) (name : Name) (ex : Bool),
      (dlookup m.processes name = none →
         raised (stopProcess m name ex) = some (.keyError name) ∧
         res (stopProcess m name ex) = m) ∧
      ((dlookup m.processes name).isSome → name ∉ m.protocols →
         res (stopProcess m name ex) = m ∧
         resOut (stopProcess m name ex) = some false) ∧
      ((dlookup m.processes name).isSome → name ∈ m.protocols → ex = true →
         res (stopProcess m name ex) = m ∧
         resOut (stopProcess m name ex) = some false) ∧
      ((dlookup m.processes name).isSome → name ∈ m.protocols → ex = false →
         resOut (stopProcess m name ex) = some true ∧
         res (stopProcess m name ex)
           = { m with
               murder := dinsert m.murder name { active := true, delay := m.cfg.killTime } }) := by
  intro m name ex
  refine ⟨?_, ?_, ?_, ?_⟩
  · intro hn
    unfold stopProcess
    rw [if_pos (by rw [hn]; rfl)]
    exact ⟨rfl, rfl⟩
  · intro hs hp
    have hs' : ¬((dlookup m.processes name).isNone = true) := by
      cases hv : dlookup m.processes name
      · rw [hv] at hs
        cases hs
      · simp
    unfold stopProcess
    rw [if_neg hs', if_neg hp]
    exact ⟨rfl, rfl⟩
  · intro hs hp hex
    subst hex
    have hs' : ¬((dlookup m.processes name).isNone = true) := by
      cases hv : dlookup m.processes name
      · rw [hv] at hs
        cases hs
      · simp
    unfold stopProcess
    rw [if_neg hs', if_pos hp, if_pos rfl]
    exact ⟨rfl, rfl⟩
  · intro hs hp hex
    subst hex
    rw [stopProcess_arms m name hs hp]
    exact ⟨rfl, rfl⟩

/-- Witness for C7: in the state after `bk0`, where `p` is registered and
live, `stopProcess` with successful TERM delivery arms the five-second kill
timer. -/
theorem stopProcess_spec_witness :
    resOut (stopProcess mon0 "p" false) = some true ∧
    res (stopProcess mon0 "p" false)
      = { mon0 with
          murder := dinsert mon0.murder "p" { active := true, delay := mon0.cfg.killTime } } :=
  (stopProcess_spec mon0 "p" false).2.2.2 (by decide) (by decide) rfl

/-- C10: `startProcess(name)` on a name with no live protocol and no
registration raises `KeyError` from the unguarded `self._processes[name]`
lookup, leaving the state unchanged. -/
theorem startProcess_unregistered_keyError :
    ∀ (m : Monitor) (now : Q) (name : Name),
      name ∉ m.protocols → dlookup m.processes name = none →
      raised (startProcess m now name) = some (.keyError name) ∧
      res (startProcess m now name) = m := by
  intro m now name hp hn
  unfold startProcess
  rw [if_neg hp, hn]
  exact ⟨rfl, rfl⟩

/-- Witness for C10: reach a state with an armed restart timer (`bk1`),
remove the process, and call `startProcess` as the stale timer would: it
raises `KeyError` and spawns nothing. -/
theorem startProcess_unregistered_keyError_witness :
    raised (startProcess (res (removeProcess c3pre "p" false)) 2 "p")
      = some (.keyError "p") ∧
    res (startProcess (res (removeProcess c3pre "p" false)) 2 "p")
      = res (removeProcess c3pre "p" false) := by
  refine startProcess_unregistered_keyError _ 2 "p" ?_ ?_
  · norm_num [c3pre, bk1, bk0, run, step, cfg60, demoSpec, Monitor.initial,
      startService, addProcess, startProcess, connectionLost, stopProcess,
      removeProcess, res, dlookup, dinsert, derase, pinsert, pdel, qmin,
      List.foldl_cons, List.foldl_nil]
  · norm_num [c3pre, bk1, bk0, run, step, cfg60, demoSpec, Monitor.initial,
      startService, addProcess, startProcess, connectionLost, stopProcess,
      removeProcess, res, dlookup, dinsert, derase, pinsert, pdel, qmin,
      List.foldl_cons, List.foldl_nil]

/-- C2: `startProcess` is a no-op (state unchanged, nothing spawned) when a
live protocol already exists for the name, so calling it twice without an
intervening exit spawns exactly once. -/
theorem startProcess_idempotent :
    (∀ (m : Monitor) (now : Q) (name : Name), name ∈ m.protocols →
       startProcess m now name = .ok (m, false)) ∧
    (∀ (m : Monitor) (now now' : Q) (name : Name),
       resOut (startProcess m now name) = some true →
       startProcess (res (startProcess m now name)) now' name
         = .ok (res (startProcess m now name), false)) := by
  constructor
  · intro m now name hp
    unfold startProcess
    rw [if_pos hp]
  · intro m now now' name h
    by_cases hp : name ∈ m.protocols
    · rw [show startProcess m now name = .ok (m, false) by
          unfold startProcess; rw [if_pos hp]] at h
      cases h
    · cases hl : dlookup m.processes name with
      | none =>
          rw [show startProcess m now name = .error (.keyError name, m) by
              unfold startProcess; rw [if_neg hp, hl]] at h
          cases h
      | some p =>
          have key : startProcess m now name
              = .ok ({ m with protocols := pinsert m.protocols name,
                              timeStarted := dinsert m.timeStarted name now },
                     true) := by
            unfold startProcess
            rw [if_neg hp, hl]
          rw [key]
          dsimp only [res]
          have hmem : name ∈ (pinsert m.protocols name) :=
            mem_pinsert.mpr (Or.inr rfl)
          unfold startProcess
          rw [if_pos hmem]

/-- Witness for C2: in the state after `bk0` the protocol for `p` is live,
and a second `startProcess` returns without spawning or changing state. -/
theorem startProcess_idempotent_witness :
    startProcess mon0 1 "p" = .ok (mon0, false) :=
  startProcess_idempotent.1 mon0 1 "p" (by decide)

/-- C1: on process exit, if the elapsed runtime is strictly below the
threshold, the next restart is scheduled after the current `delay[name]` and
only then the delay doubles (capped at `maxRestartDelay`); if the process
ran at least `threshold` seconds, the restart is immediate and the delay
resets to `minRestartDelay`. With `minRestartDelay = 1`, `threshold = 1`,
`maxRestartDelay = 60`, three exits 0.2 s after each start schedule restarts
of 1 s, 2 s, 4 s with `delay[name] = 8` afterwards, and a following exit
after a 2 s run schedules an immediate restart with the delay reset to 1. -/
theorem backoff_delay_then_double :
    (∀ (m : Monitor) (now t0 d : Q) (name : Name),
       name ∈ m.protocols →
       dlookup m.timeStarted name = some t0 →
       dlookup m.delay name = some d →
       m.running = true →
       (dlookup m.processes name).isSome →
       (now - t0 < m.cfg.threshold →
          resOut (connectionLost m now name) = some d ∧
          dlookup (res (connectionLost m now name)).delay name
            = some (qmin (d * 2) m.cfg.maxRestartDelay) ∧
          dlookup (res (connectionLost m now name)).restart name
            = some { active := true, delay := d }) ∧
       (m.cfg.threshold ≤ now - t0 →
          resOut (connectionLost m now name) = some 0 ∧
          dlookup (res (connectionLost m now name)).delay name
            = some m.cfg.minRestartDelay ∧
          dlookup (res (connectionLost m now name)).restart name
            = some { active := true, delay := 0 })) ∧
    (dlookup (run (Monitor.initial cfg60) bk1).restart "p"
       = some { active := true, delay := 1 } ∧
     dlookup (run (Monitor.initial cfg60) bk2).restart "p"
       = some { active := true, delay := 2 } ∧
     dlookup (run (Monitor.initial cfg60) bk3).restart "p"
       = some { active := true, delay := 4 } ∧
     dlookup (run (Monitor.initial cfg60) bk3).delay "p" = some 8 ∧
     dlookup (run (Monitor.initial cfg60) bk4).restart "p"
       = some { active := true, delay := 0 } ∧
     dlookup (run (Monitor.initial cfg60) bk4).delay "p" = some 1) := by
  constructor
  · intro m now t0 d name hproto hts hd hrun hreg
    constructor
    · intro hfast
      unfold connectionLost
      dsimp only
      rw [if_pos hproto, hts]
      dsimp only
      rw [if_pos hfast, hd]
      dsimp only
      rw [if_pos ⟨hrun, hreg⟩]
      refine ⟨rfl, ?_, ?_⟩
      · exact dlookup_dinsert_self _ _ _
      · exact dlookup_dinsert_self _ _ _
    · intro hslow
      unfold connectionLost
      dsimp only
      rw [if_pos hproto, hts]
      dsimp only
      rw [if_neg (not_lt.mpr hslow)]
      rw [if_pos ⟨hrun, hreg⟩]
      refine ⟨rfl, ?_, ?_⟩
      · exact dlookup_dinsert_self _ _ _
      · exact dlookup_dinsert_self _ _ _
  · norm_num [run, step, bk4, bk3, bk2, bk1, bk0, cfg60, demoSpec,
      Monitor.initial, startService, addProcess, startProcess, connectionLost,
      stopProcess, res, dlookup, dinsert, derase, pinsert, pdel, qmin,
      List.foldl_cons, List.foldl_nil]

/-- Witness for C1: the first fast exit of the scenario, applied through the
general statement: the process started at 0 exits at 0.2 s, the scheduled
restart delay is the current `delay = 1`, and the stored delay doubles. -/
theorem backoff_delay_then_double_witness :
    resOut (connectionLost mon0 (1 / 5) "p") = some 1 ∧
    dlookup (res (connectionLost mon0 (1 / 5) "p")).delay "p"
      = some (qmin (1 * 2) mon0.cfg.maxRestartDelay) ∧
    dlookup (res (connectionLost mon0 (1 / 5) "p")).restart "p"
      = some { active := true, delay := 1 } :=
  (backoff_delay_then_double.1 mon0 (1 / 5) 0 1 "p"
      (by decide) (by decide) (by decide) (by decide) (by decide)).1
    (by norm_num [mon0, run, step, bk0, cfg60, demoSpec, Monitor.initial,
      startService, addProcess, startProcess, res, dlookup, dinsert, pinsert,
      List.foldl_cons, List.foldl_nil])

/-- Counterexample for C3: in the state after `bk1` a restart timer for `p`
is armed (active, scheduled 1 s out); `removeProcess("p")` succeeds, yet the
armed restart timer is still present and active afterwards — `removeProcess`
does not cancel pending timers. -/
theorem removeProcess_leaves_restart_timer :
    dlookup c3pre.restart "p" = some { active := true, delay := 1 } ∧
    raised (removeProcess c3pre "p" false) = none ∧
    dlookup (res (removeProcess c3pre "p" false)).restart "p"
      = some { active := true, delay := 1 } := by
  norm_num [c3pre, bk1, bk0, run, step, cfg60, demoSpec, Monitor.initial,
    startService, addProcess, startProcess, connectionLost, stopProcess,
    removeProcess, res, raised, dlookup, dinsert, derase, pinsert, pdel, qmin,
    List.foldl_cons, List.foldl_nil]

/-- C3 as amended: a successful `removeProcess` deletes the registration and
stops the process, but leaves the restart timer table untouched; afterwards
no `startProcess` for that name can spawn (it is a no-op while a stale
protocol lives, and raises `KeyError` otherwise), and the stale restart
timer firing leaves the set of live protocols unchanged — so the removed
process is never respawned even though its timer was not cancelled. -/
theorem removeProcess_amended :
    ∀ (m : Monitor) (name : Name) (ex : Bool),
      raised (removeProcess m name ex) = none →
      dlookup (res (removeProcess m name ex)).processes name = none ∧
      (res (removeProcess m name ex)).restart = m.restart ∧
      (∀ now, resOut (startProcess (res (removeProcess m name ex)) now name)
         ≠ some true) ∧
      (∀ now,
        (step (res (removeProcess m name ex)) (.fireRestart now name)).protocols
          = (res (removeProcess m name ex)).protocols) := by
  intro m name ex hok
  have hms : ∃ ms bb, stopProcess m name ex = .ok (ms, bb) := by
    cases hs : stopProcess m name ex with
    | error e =>
        obtain ⟨e1, m1⟩ := e
        unfold removeProcess at hok
        rw [hs] at hok
        cases hok
    | ok w =>
        obtain ⟨ms, bb⟩ := w
        exact ⟨ms, bb, rfl⟩
  obtain ⟨ms, bb, hs⟩ := hms
  have hrem : removeProcess m name ex
      = .ok ({ ms with processes := derase ms.processes name }, ()) := by
    unfold removeProcess
    rw [hs]
  have hres : res (removeProcess m name ex)
      = { ms with processes := derase ms.processes name } := by
    rw [hrem]
    rfl
  have hmsr : ms.restart = m.restart := by
    have hfr := restart_stopProcess m name ex
    rw [hs] at hfr
    exact hfr
  have hnone : dlookup (res (removeProcess m name ex)).processes name
      = none := by
    rw [hres]
    exact dlookup_derase_self _ _
  refine ⟨hnone, ?_, ?_, ?_⟩
  · rw [hres]
    exact hmsr
  · intro now
    exact (startProcess_unregistered_noop _ now name hnone).2
  · intro now
    unfold step
    dsimp only
    cases hdc : dlookup (res (removeProcess m name ex)).restart name with
    | none => rfl
    | some dc =>
        dsimp only
        cases hab : dc.active with
        | false =>
            rw [if_neg (by simp)]
        | true =>
            rw [if_pos rfl]
            have hnone2 : dlookup
                ({ res (removeProcess m name ex) with
                   restart := dinsert (res (removeProcess m name ex)).restart
                     name { active := false, delay := dc.delay } }
                  : Monitor).processes name = none := hnone
            rw [(startProcess_unregistered_noop _ now name hnone2).1]

/-- Witness for C3 (amended): the concrete removal after `bk1` succeeds,
leaves the restart table exactly as it was, and the stale timer firing
spawns nothing. -/
theorem removeProcess_amended_witness :
    raised (removeProcess c3pre "p" false) = none ∧
    (res (removeProcess c3pre "p" false)).restart = c3pre.restart := by
  have hok : raised (removeProcess c3pre "p" false) = none := by
    norm_num [c3pre, bk1, bk0, run, step, cfg60, demoSpec, Monitor.initial,
      startService, addProcess, startProcess, connectionLost, stopProcess,
      removeProcess, res, raised, dlookup, dinsert, derase, pinsert, pdel,
      qmin, List.foldl_cons, List.foldl_nil]
  exact ⟨hok, (removeProcess_amended c3pre "p" false hok).2.1⟩

/-- C5: an active kill-escalation (`murder`) timer exists only for names
with a live protocol, in every state reachable from a fresh monitor; and
`connectionLost` always removes the kill timer for the exiting name, so a
kill timer armed by `stopProcess` can never fire once the exit has been
observed (the fire event is then a no-op). -/
theorem killTimer_only_while_live :
    (∀ (c : Config) (m : Monitor), Reaches (Monitor.initial c) m →
       ∀ n dc, dlookup m.murder n = some dc → dc.active = true →
         n ∈ m.protocols) ∧
    (∀ (m : Monitor) (now : Q) (name : Name),
       dlookup (res (connectionLost m now name)).murder name = none) ∧
    (∀ (m : Monitor) (now : Q) (name : Name),
       step (res (connectionLost m now name)) (.fireMurder name)
         = res (connectionLost m now name)) := by
  have hgone : ∀ (m : Monitor) (now : Q) (name : Name),
      dlookup (res (connectionLost m now name)).murder name = none := by
    intro m now name
    rw [(connectionLost_res_fields m now name).2.2.2.2.1, dlookup_derase_self]
  refine ⟨?_, hgone, ?_⟩
  · intro c m hr
    exact murderLive_reaches hr (fun n dc h => nomatch h)
  · intro m now name
    unfold step
    dsimp only
    rw [hgone m now name]

/-- Witness for C5: after `bkKill` (start, add `p`, `stopProcess` with TERM
delivered) the kill timer for `p` is armed and active, and the invariant
yields that `p` is live. -/
theorem killTimer_only_while_live_witness :
    "p" ∈ (run (Monitor.initial cfg60) bkKill).protocols :=
  killTimer_only_while_live.1 cfg60 (run (Monitor.initial cfg60) bkKill)
    (reaches_run _ _) "p" { active := true, delay := 5 } (by decide) rfl

theorem stopFold_frame (ex : Name → Bool) (l : List (Name × ProcessSpec)) :
    ∀ acc : Monitor,
      ((l.foldl (fun a p => res (stopProcess a p.1 (ex p.1))) acc).processes
         = acc.processes) ∧
      ((l.foldl (fun a p => res (stopProcess a p.1 (ex p.1))) acc).protocols
         = acc.protocols) ∧
      ((l.foldl (fun a p => res (stopProcess a p.1 (ex p.1))) acc).cfg
         = acc.cfg) ∧
      ((l.foldl (fun a p => res (stopProcess a p.1 (ex p.1))) acc).restart
         = acc.restart) ∧
      ((l.foldl (fun a p => res (stopProcess a p.1 (ex p.1))) acc).running
         = acc.running) := by
  induction l with
  | nil => exact fun acc => ⟨rfl, rfl, rfl, rfl, rfl⟩
  | cons x xs ih =>
      intro acc
      simp only [List.foldl_cons]
      refine ⟨?_, ?_, ?_, ?_, ?_⟩
      · rw [(ih _).1, processes_stopProcess]
      · rw [(ih _).2.1, protocols_stopProcess]
      · rw [(ih _).2.2.1, cfg_stopProcess]
      · rw [(ih _).2.2.2.1, restart_stopProcess]
      · rw [(ih _).2.2.2.2, running_stopProcess]

theorem stopFold_arms (ex : Name → Bool) (l : List (Name × ProcessSpec)) :
    ∀ (acc : Monitor) (n : Name),
      (dlookup acc.processes n).isSome → n ∈ acc.protocols → ex n = false →
      ((n ∈ l.map Prod.fst) ∨
        dlookup acc.murder n
          = some { active := true, delay := acc.cfg.killTime }) →
      dlookup (l.foldl (fun a p => res (stopProcess a p.1 (ex p.1))) acc).murder n
        = some { active := true, delay := acc.cfg.killTime } := by
  induction l with
  | nil =>
      intro acc n hS hP hE hD
      rcases hD with hD | hD
      · cases hD
      · exact hD
  | cons x xs ih =>
      intro acc n hS hP hE hD
      simp only [List.foldl_cons]
      have hcfg' : (res (stopProcess acc x.1 (ex x.1))).cfg = acc.cfg :=
        cfg_stopProcess _ _ _
      rw [show acc.cfg.killTime
            = (res (stopProcess acc x.1 (ex x.1))).cfg.killTime by rw [hcfg']]
      apply ih
      · rw [processes_stopProcess]
        exact hS
      · rw [protocols_stopProcess]
        exact hP
      · exact hE
      · rcases hD with hD | hD
        · rw [List.map_cons] at hD
          rcases List.mem_cons.mp hD with heq | hmem
          · right
            rw [hcfg']
            rw [← heq, hE, stopProcess_arms acc n hS hP]
            exact dlookup_dinsert_self _ _ _
          · left
            exact hmem
        · right
          rw [hcfg']
          exact stopProcess_murder_preserve acc x.1 (ex x.1) n hD

/-- C6: `stopService` clears the running flag, cancels every restart timer
before stopping processes (afterwards no restart timer is active), and
delivers TERM with an armed kill escalation to every registered live process
whose TERM delivery does not race with its exit. -/
theorem stopService_spec :
    ∀ (m : Monitor) (ex : Name → Bool),
      (stopService m ex).running = false ∧
      (∀ n dc, dlookup (stopService m ex).restart n = some dc →
         dc.active = false) ∧
      (∀ n, (dlookup m.processes n).isSome → n ∈ m.protocols → ex n = false →
         dlookup (stopService m ex).murder n
           = some { active := true, delay := m.cfg.killTime }) := by
  intro m ex
  unfold stopService
  dsimp only
  refine ⟨?_, ?_, ?_⟩
  · rw [(stopFold_frame ex _ _).2.2.2.2]
  · intro n dc h
    rw [(stopFold_frame ex _ _).2.2.2.1] at h
    exact dlookup_map_cancel h
  · intro n hS hP hE
    exact stopFold_arms ex _ _ n hS hP hE (Or.inl (dlookup_mem_keys hS))

/-- Witness for C6: stopping the service in the state after `bk0` (with `p`
registered and live, TERM delivery succeeding) arms the kill timer for `p`;
the running flag and restart conjuncts apply at the same state. -/
theorem stopService_spec_witness :
    dlookup (stopService mon0 (fun _ => false)).murder "p"
      = some { active := true, delay := mon0.cfg.killTime } :=
  (stopService_spec mon0 (fun _ => false)).2.2 "p"
    (by decide) (by decide) rfl

/-- C8: `addProcess` raises `KeyError` and changes nothing when the name is
already registered; otherwise it registers the spec, initialises
`delay[name] = minRestartDelay`, spawns iff the service is running (under
the data-model invariant that an unregistered name has no live protocol),
and leaves the state of every other name untouched. -/
theorem addProcess_spec :
    ∀ (m : Monitor) (now : Q) (name : Name) (p : ProcessSpec),
      ((dlookup m.processes name).isSome →
         raised (addProcess m now name p) = some (.keyError name) ∧
         res (addProcess m now name p) = m) ∧
      (dlookup m.processes name = none → name ∉ m.protocols →
         raised (addProcess m now name p) = none ∧
         dlookup (res (addProcess m now name p)).processes name = some p ∧
         dlookup (res (addProcess m now name p)).delay name
           = some m.cfg.minRestartDelay ∧
         resOut (addProcess m now name p) = some m.running ∧
         (∀ k, k ≠ name →
            dlookup (res (addProcess m now name p)).processes k
              = dlookup m.processes k ∧
            dlookup (res (addProcess m now name p)).delay k = dlookup m.delay k ∧
            dlookup (res (addProcess m now name p)).timeStarted k
              = dlookup m.timeStarted k ∧
            (k ∈ (res (addProcess m now name p)).protocols ↔ k ∈ m.protocols) ∧
            dlookup (res (addProcess m now name p)).murder k
              = dlookup m.murder k ∧
            dlookup (res (addProcess m now name p)).restart k
              = dlookup m.restart k)) := by
  intro m now name p
  constructor
  · intro hs
    unfold addProcess
    rw [if_pos hs]
    exact ⟨rfl, rfl⟩
  · intro hn hp
    have hs' : ¬((dlookup m.processes name).isSome = true) := by
      rw [hn]
      simp
    have hlook : dlookup (dinsert m.processes name p) name = some p :=
      dlookup_dinsert_self _ _ _
    cases hr : m.running with
    | true =>
        have key : addProcess m now name p
            = .ok ({ m with processes := dinsert m.processes name p,
                            delay := dinsert m.delay name m.cfg.minRestartDelay,
                            protocols := pinsert m.protocols name,
                            timeStarted := dinsert m.timeStarted name now },
                   true) := by
          unfold addProcess
          rw [if_neg hs']
          dsimp only
          rw [hr, if_pos rfl]
          unfold startProcess
          rw [if_neg hp]
          dsimp only
          rw [hlook]
        rw [key]
        dsimp only [raised, res, resOut]
        refine ⟨rfl, hlook, dlookup_dinsert_self _ _ _, rfl, ?_⟩
        intro k hk
        refine ⟨dlookup_dinsert_ne _ hk _, dlookup_dinsert_ne _ hk _,
          dlookup_dinsert_ne _ hk _, ?_, rfl, rfl⟩
        rw [mem_pinsert]
        constructor
        · rintro (hh | rfl)
          · exact hh
          · exact absurd rfl hk
        · exact fun hh => Or.inl hh
    | false =>
        have key : addProcess m now name p
            = .ok ({ m with processes := dinsert m.processes name p,
                            delay := dinsert m.delay name m.cfg.minRestartDelay },
                   false) := by
          unfold addProcess
          rw [if_neg hs']
          dsimp only
          rw [hr, if_neg (by simp)]
        rw [key]
        dsimp only [raised, res, resOut]
        refine ⟨rfl, hlook, dlookup_dinsert_self _ _ _, rfl, ?_⟩
        intro k hk
        exact ⟨dlookup_dinsert_ne _ hk _, dlookup_dinsert_ne _ hk _, rfl,
          Iff.rfl, rfl, rfl⟩

/-- Witness for C8: adding a fresh process `q` to the running monitor after
`bk0` registers it with `delay = minRestartDelay = 1`, spawns it (the
service is running), and leaves the state of `p` untouched. -/
theorem addProcess_spec_witness :
    raised (addProcess mon0 3 "q" demoSpec) = none ∧
    dlookup (res (addProcess mon0 3 "q" demoSpec)).processes "q"
      = some demoSpec ∧
    dlookup (res (addProcess mon0 3 "q" demoSpec)).delay "q"
      = some mon0.cfg.minRestartDelay ∧
    resOut (addProcess mon0 3 "q" demoSpec) = some mon0.running ∧
    dlookup (res (addProcess mon0 3 "q" demoSpec)).delay "p"
      = dlookup mon0.delay "p" := by
  have h := (addProcess_spec mon0 3 "q" demoSpec).2 (by decide) (by decide)
  exact ⟨h.1, h.2.1, h.2.2.1, h.2.2.2.1,
    (h.2.2.2.2 "p" (by decide)).2.1⟩

/-- C9: in every state reachable from a fresh monitor whose configuration
satisfies `0 < minRestartDelay ≤ maxRestartDelay`, every recorded restart
delay lies in `[minRestartDelay, maxRestartDelay]`: `addProcess` initialises
the delay to `minRestartDelay`, a fast exit doubles it but caps it at
`maxRestartDelay`, and a healthy exit resets it to `minRestartDelay`. -/
theorem delay_bounds_invariant :
    ∀ (c : Config) (m : Monitor),
      0 < c.minRestartDelay → c.minRestartDelay ≤ c.maxRestartDelay →
      Reaches (Monitor.initial c) m →
      ∀ n d, dlookup m.delay n = some d →
        c.minRestartDelay ≤ d ∧ d ≤ c.maxRestartDelay := by
  intro c m h0 h1 hr n d hd
  have hc : m.cfg = c := cfg_reaches hr
  have hdb : DelayBounds m :=
    delayBounds_reaches hr h0 h1 (fun k dd hk => nomatch hk)
  have hb := hdb n d hd
  rw [hc] at hb
  exact hb

/-- Witness for C9: after the first fast exit of the scenario the recorded
delay for `p` is 2, and the invariant places it between 1 and 60. -/
theorem delay_bounds_invariant_witness :
    cfg60.minRestartDelay ≤ 2 ∧ (2 : Q) ≤ cfg60.maxRestartDelay := by
  refine delay_bounds_invariant cfg60 c3pre ?_ ?_ ?_ "p" 2 ?_
  · norm_num [cfg60]
  · norm_num [cfg60]
  · exact reaches_run _ _
  · norm_num [c3pre, bk1, bk0, run, step, cfg60, demoSpec, Monitor.initial,
      startService, addProcess, startProcess, connectionLost, stopProcess,
      res, dlookup, dinsert, derase, pinsert, pdel, qmin,
      List.foldl_cons, List.foldl_nil]

/-- C4 (evaluating the code at the failing input): after receiving the chunk
`b"hi\x0a"` — a stream that ends exactly at a line boundary — the protocol
logs the line `hi` but its `empty` flag is `false`, because under Python 3
`data[-1] == b"\x0a"` compares an `int` with a `bytes` and is always
`False`; `processEnded` therefore injects a synthetic newline and logs a
spurious empty line, contradicting the claim that the newline is injected
iff the stream does not end at a boundary. The flush of a genuine trailing
partial line (the claim's other direction) does work, as the last two
conjuncts show. -/
theorem trailing_newline_flag_bug :
    outReceived (connectionMade "p") [104, 105, 10]
      = some ({ name := "p", output := { tag := "p", buffer := [] },
                empty := false }, [[104, 105]]) ∧
    (processEnded { name := "p", output := { tag := "p", buffer := [] },
                    empty := false }).2 = [[]] ∧
    outReceived (connectionMade "p") [104, 105]
      = some ({ name := "p", output := { tag := "p", buffer := [104, 105] },
                empty := false }, []) ∧
    (processEnded { name := "p", output := { tag := "p", buffer := [104, 105] },
                    empty := false }).2 = [[104, 105]] := by
  decide

end Procmon
